import Mathlib

/-!
# Verification of the maven-repo Cloudflare worker

A shallow embedding, in Lean 4, of the publishing/metadata engine of the
maven-repo worker (`src/worker/src/index.ts` and the evolved worker file):
basic-auth credential checking, release/snapshot upload handlers, the
snapshot timestamp/build-number generator, the version-level metadata
rewriter, the versions query with its sort, and the purge operator.

JavaScript strings are modelled as Lean `String`s, with string primitives
(`split`, `startsWith`, `endsWith`, `includes`, `substring`, `join`,
`padStart`, per-character `replace`) embedded as executable functions over
`String.data`. The object store (Cloudflare R2) is modelled as an
association list from keys to contents; the content type is a parameter,
since the handlers never inspect stored bytes.
-/

namespace MavenRepo

/-- JS `s.split(c)` for a one-character separator, on the character list:
split at every occurrence of `c`; `"".split(c)` is `[""]`, a leading,
trailing or doubled separator yields empty fields. -/
def splitOnChar (c : Char) : List Char → List (List Char)
  | [] => [[]]
  | x :: xs =>
    if x = c then [] :: splitOnChar c xs
    else
      match splitOnChar c xs with
      | [] => [[x]]
      | r :: rs => (x :: r) :: rs

/-- `splitOnChar` never returns the empty list of fields. -/
theorem splitOnChar_ne_nil (c : Char) (l : List Char) : splitOnChar c l ≠ [] := by
  induction l with
  | nil => simp [splitOnChar]
  | cons x xs ih =>
    simp only [splitOnChar]
    split
    · simp
    · cases h : splitOnChar c xs with
      | nil => simp
      | cons r rs => simp

/-- No field produced by `splitOnChar` contains the separator. -/
theorem splitOnChar_not_mem (c : Char) (l : List Char) :
    ∀ t ∈ splitOnChar c l, c ∉ t := by
  induction l with
  | nil => intro t ht; simp [splitOnChar] at ht; simp [ht]
  | cons x xs ih =>
    intro t ht
    simp only [splitOnChar] at ht
    split at ht
    · rcases List.mem_cons.mp ht with h | h
      · simp [h]
      · exact ih t h
    · rename_i hx
      cases h : splitOnChar c xs with
      | nil => exact absurd h (splitOnChar_ne_nil c xs)
      | cons r rs =>
        rw [h] at ht
        rcases List.mem_cons.mp ht with h' | h'
        · subst h'
          intro hmem
          rcases List.mem_cons.mp hmem with h'' | h''
          · exact hx h''.symm
          · exact ih r (h ▸ List.mem_cons_self r rs) h''
        · exact ih t (h ▸ List.mem_cons_of_mem r h')

/-- JS `s.split(c)` at the `String` level. -/
def jsSplit (c : Char) (s : String) : List String :=
  (splitOnChar c s.data).map (⟨·⟩)

/-- JS `haystack.startsWith(needle)`. -/
def jsStartsWith (s pre : String) : Bool :=
  pre.data.isPrefixOf s.data

/-- JS `haystack.endsWith(needle)`. -/
def jsEndsWith (s suf : String) : Bool :=
  suf.data.isSuffixOf s.data

/-- JS `haystack.includes(needle)`. -/
def jsIncludes (s sub : String) : Bool :=
  decide (List.IsInfix sub.data s.data)

/-- JS `s.substring(n)`: the suffix from index `n`. -/
def jsSubstring (s : String) (n : Nat) : String :=
  ⟨s.data.drop n⟩

/-- JS `Array.prototype.join(sep)`. -/
def jsJoin (sep : String) : List String → String
  | [] => ""
  | [p] => p
  | p :: q :: ps => p ++ sep ++ jsJoin sep (q :: ps)

/-- JS truthiness of a `string | null | undefined` value: `null`/`undefined`
and the empty string are falsy. -/
def strTruthy : Option String → Bool
  | none => false
  | some s => s ≠ ""

-- ---------------------------------------------------------------------------
-- Authentication (validateBasicAuth, src/worker/src/index.ts:64-85 and the
-- identical copies in the evolved worker file)
-- ---------------------------------------------------------------------------

/-- The credential comparison at the heart of `validateBasicAuth`, applied to
the base64-decoded token: `const [providedUsername, providedPassword] =
decoded.split(':')` destructures the first two fields of the split (missing
fields are `undefined`, which never equals a configured string), and the
result is `providedUsername === username && providedPassword === password`. -/
def validateBasicAuth (decoded username password : String) : Bool :=
  let parts := jsSplit ':' decoded
  let providedUsername := parts[0]?
  let providedPassword := parts[1]?
  providedUsername == some username && providedPassword == some password

/-- C10: colon-in-password lockout. `validateBasicAuth` splits the decoded
credential string on every `':'` and compares only the first two fields, so
whenever the configured password itself contains a colon no decoded
credential string whatsoever — including the exactly correct
`username ++ ":" ++ password` that a well-behaved client sends — can make
the check succeed: the second split field never contains a colon, hence
never equals the configured password. -/
theorem validateBasicAuth_colon_lockout (username password : String)
    (hcolon : ':' ∈ password.data) :
    (∀ decoded : String, validateBasicAuth decoded username password = false) ∧
      validateBasicAuth (username ++ ":" ++ password) username password = false := by
  have hall : ∀ decoded : String, validateBasicAuth decoded username password = false := by
    intro decoded
    have hne : (jsSplit ':' decoded)[1]? ≠ some password := by
      intro h
      have hp : password ∈ jsSplit ':' decoded := List.getElem?_mem h
      rcases List.mem_map.mp hp with ⟨t, ht, hmk⟩
      have hnot : ':' ∉ t := splitOnChar_not_mem ':' decoded.data t ht
      apply hnot
      have hdata : password.data = t := by
        rw [← hmk]
      rwa [hdata] at hcolon
    have hfalse : (((jsSplit ':' decoded)[1]? == some password) : Bool) = false :=
      beq_eq_false_iff_ne.mpr hne
    simp [validateBasicAuth, hfalse]
  exact ⟨hall, hall _⟩

/-- Witness for C10 at a concrete input: password `"a:b"` contains a colon,
and the correctly encoded request `"user:a:b"` is still refused. -/
theorem validateBasicAuth_colon_lockout_witness :
    ':' ∈ "a:b".data ∧ validateBasicAuth "user:a:b" "user" "a:b" = false :=
  ⟨by decide, (validateBasicAuth_colon_lockout "user" "a:b" (by decide)).1 "user:a:b"⟩

-- ---------------------------------------------------------------------------
-- Object store model
-- ---------------------------------------------------------------------------

/-- The R2 bucket, modelled as an association list from keys to contents.
`get`/`head` are first-match lookup; `put` prepends, shadowing any earlier
binding for the key. The content type is a parameter: the handlers never
inspect stored bytes. -/
abbrev Store (γ : Type) : Type := List (String × γ)

/-- `env.R2.put(key, value)`. -/
def putStore {γ : Type} (key : String) (v : γ) (s : Store γ) : Store γ :=
  (key, v) :: s

/-- `env.R2.get(key)` / `env.R2.head(key)` presence. -/
def getStore {γ : Type} (key : String) (s : Store γ) : Option γ :=
  (s.find? (fun kv => kv.1 == key)).map (·.2)

theorem getStore_put_self {γ : Type} (key : String) (v : γ) (s : Store γ) :
    getStore key (putStore key v s) = some v := by
  simp [getStore, putStore, List.find?]

theorem getStore_put_ne {γ : Type} {key k : String} (v : γ) (s : Store γ)
    (h : k ≠ key) : getStore k (putStore key v s) = getStore k s := by
  simp only [getStore, putStore, List.find?]
  have : ((key, v).1 == k) = false := by
    simp [h.symm]
  simp [this]

/-- An HTTP response, reduced to the status code and the body text the
handlers produce (for JSON error responses, the `error` message). -/
structure HttpRes where
  status : Nat
  body : String
deriving DecidableEq, Repr

-- ---------------------------------------------------------------------------
-- Upload validation predicates
-- ---------------------------------------------------------------------------

/-- The `validExtensions` list of `handleReleasePut` in the evolved worker
(nine entries, including `.sha512` and `.md5`). -/
def validExtensions : List String :=
  [".jar", ".pom", ".module", ".xml", ".sha1", ".sha256", ".sha512", ".md5", ".asc"]

/-- `validExtensions.some((ext) => fileName.endsWith(ext))`. -/
def hasValidExtension (fileName : String) : Bool :=
  validExtensions.any (fun ext => jsEndsWith fileName ext)

/-- The `validExtensions` list of the original worker's `handlePublishPut`
(src/worker/src/index.ts:342) and of the server-computing `handleSnapshotPut`
variant: seven entries, without `.sha512` and `.md5`. -/
def validExtensionsV1 : List String :=
  [".jar", ".pom", ".module", ".xml", ".sha1", ".sha256", ".asc"]

/-- The seven-extension check of the earlier variants. -/
def hasValidExtensionV1 (fileName : String) : Bool :=
  validExtensionsV1.any (fun ext => jsEndsWith fileName ext)

/-- The existence-check guard of `handleReleasePut`: the file is checked for
prior existence unless it is a checksum (`.sha1`/`.sha256`/`.sha512`/`.md5`)
or its name contains `maven-metadata`. Note that `.asc` signature files are
NOT exempted. -/
def releaseExistenceChecked (fileName : String) : Bool :=
  !jsEndsWith fileName ".sha1" && !jsEndsWith fileName ".sha256" &&
    !jsEndsWith fileName ".sha512" && !jsEndsWith fileName ".md5" &&
    !jsIncludes fileName "maven-metadata"

-- ---------------------------------------------------------------------------
-- handleReleasePut (evolved worker, per-file immutability variant)
-- ---------------------------------------------------------------------------

/-- `handleReleasePut`: authenticate, parse
`/releases/{group...}/{artifactId}/{version}/{fileName}`, validate the
extension, reject with 409 if an existence-checked file is already present
at the exact key, otherwise store the body at the literal key. `authOk`
stands for the outcome of `validateBasicAuth` on the request. -/
def handleReleasePut {γ : Type} (authOk : Bool) (pathname : String) (body : γ)
    (store : Store γ) : HttpRes × Store γ :=
  if !authOk then (⟨401, "Authentication required"⟩, store)
  else if !jsStartsWith pathname "/releases/" then
    (⟨400, "Invalid release path"⟩, store)
  else
    let mavenPath := jsSubstring pathname 10
    let pathParts := jsSplit '/' mavenPath
    if pathParts.length < 4 then (⟨400, "Invalid Maven path format"⟩, store)
    else
      let versionIndex := pathParts.length - 2
      let fileName := pathParts.getD (pathParts.length - 1) ""
      let version := pathParts.getD versionIndex ""
      let artifactId := pathParts.getD (versionIndex - 1) ""
      let groupParts := pathParts.take (versionIndex - 1)
      let groupPath := jsJoin "/" groupParts
      if !hasValidExtension fileName then (⟨400, "Invalid file type"⟩, store)
      else
        let r2Key := groupPath ++ "/" ++ artifactId ++ "/" ++ version ++ "/" ++ fileName
        if releaseExistenceChecked fileName && (getStore r2Key store).isSome then
          (⟨409, "File " ++ fileName ++ " already exists"⟩, store)
        else
          (⟨200, "OK"⟩, putStore r2Key body store)

-- ---------------------------------------------------------------------------
-- handleSnapshotPut (evolved worker, trusting variant)
-- ---------------------------------------------------------------------------

/-- `handleSnapshotPut` (the routed, trusting variant): authenticate, parse
`/snapshots/...`; a 3-segment path ending in `maven-metadata.xml` stores the
artifact-level metadata verbatim; otherwise require ≥ 4 segments and a
version ending in `-SNAPSHOT` (bypassed for metadata files), then store the
body under the caller-supplied filename. No extension validation and no
existence check are performed on this path. -/
def handleSnapshotPut {γ : Type} (authOk : Bool) (pathname : String) (body : γ)
    (store : Store γ) : HttpRes × Store γ :=
  if !authOk then (⟨401, "Authentication required"⟩, store)
  else if !jsStartsWith pathname "/snapshots/" then
    (⟨400, "Invalid snapshot path"⟩, store)
  else
    let mavenPath := jsSubstring pathname 11
    let pathParts := jsSplit '/' mavenPath
    if pathParts.length < 3 then (⟨400, "Invalid path format"⟩, store)
    else
      let fileName := pathParts.getD (pathParts.length - 1) ""
      if pathParts.length == 3 && fileName == "maven-metadata.xml" then
        let artifactId := pathParts.getD (pathParts.length - 2) ""
        let groupParts := pathParts.take (pathParts.length - 2)
        let groupPath := jsJoin "/" groupParts
        let r2Key := groupPath ++ "/" ++ artifactId ++ "/" ++ fileName
        (⟨200, "OK"⟩, putStore r2Key body store)
      else if pathParts.length < 4 then (⟨400, "Invalid path format"⟩, store)
      else
        let version := pathParts.getD (pathParts.length - 2) ""
        let artifactId := pathParts.getD (pathParts.length - 3) ""
        let groupParts := pathParts.take (pathParts.length - 3)
        let groupPath := jsJoin "/" groupParts
        if !jsEndsWith version "-SNAPSHOT" && !jsIncludes fileName "maven-metadata" then
          (⟨400, "Version must end with -SNAPSHOT"⟩, store)
        else
          let r2Key := groupPath ++ "/" ++ artifactId ++ "/" ++ version ++ "/" ++ fileName
          (⟨200, "OK"⟩, putStore r2Key body store)

-- ---------------------------------------------------------------------------
-- Parsed maven-metadata.xml model
-- ---------------------------------------------------------------------------

/-- A field that fast-xml-parser yields as a single value for one XML child
and as an array for several. -/
inductive OneOrMany (α : Type) : Type
  | one (a : α)
  | many (l : List α)
deriving DecidableEq, Repr

/-- `Array.isArray(x) ? x : (x ? [x] : [])` — the one-or-many normalization
the handlers perform, applied to a possibly-missing field. -/
def normalizeOneOrMany {α : Type} : Option (OneOrMany α) → List α
  | none => []
  | some (.one a) => [a]
  | some (.many l) => l

/-- The `<snapshot>` block of version-level metadata. -/
structure SnapshotBlock where
  timestamp : Option String
  buildNumber : Option Nat
deriving DecidableEq, Repr

/-- One `<snapshotVersion>` entry. -/
structure SnapshotVersionEntry where
  extension : Option String
  classifier : Option String
  value : Option String
  updated : Option String
deriving DecidableEq, Repr

/-- The `<versioning>` block. The `versions.version` child collapses to the
field `versions`, and `snapshotVersions.snapshotVersion` to
`snapshotVersions`, both one-or-many. -/
structure Versioning where
  latest : Option String
  release : Option String
  snapshot : Option SnapshotBlock
  lastUpdated : Option String
  snapshotVersions : Option (OneOrMany SnapshotVersionEntry)
  versions : Option (OneOrMany String)
deriving DecidableEq, Repr

/-- The inner `<metadata>` element. -/
structure MetadataInner where
  groupId : Option String
  artifactId : Option String
  version : Option String
  versioning : Option Versioning
deriving DecidableEq, Repr

/-- A parsed `maven-metadata.xml` document: every field is optional, as in
the worker's `MavenMetadata` TypeScript interface. -/
structure MavenMetadata where
  metadata : Option MetadataInner
deriving DecidableEq, Repr

/-- `parsed.metadata?.versioning` optional chain. -/
def metaVersioning (m : MavenMetadata) : Option Versioning :=
  m.metadata.bind (·.versioning)

/-- `parsed.metadata?.versioning?.snapshot?.timestamp`. -/
def metaSnapshotTimestamp (m : MavenMetadata) : Option String :=
  ((metaVersioning m).bind (·.snapshot)).bind (·.timestamp)

/-- `parsed.metadata?.versioning?.snapshot?.buildNumber`. -/
def metaSnapshotBuildNumber (m : MavenMetadata) : Option Nat :=
  ((metaVersioning m).bind (·.snapshot)).bind (·.buildNumber)

/-- `parsed.metadata?.versioning?.versions?.version`. -/
def metaVersionsField (m : MavenMetadata) : Option (OneOrMany String) :=
  (metaVersioning m).bind (·.versions)

/-- `parsed.metadata?.versioning?.snapshotVersions?.snapshotVersion`. -/
def metaSnapshotVersionsField (m : MavenMetadata) : Option (OneOrMany SnapshotVersionEntry) :=
  (metaVersioning m).bind (·.snapshotVersions)

-- ---------------------------------------------------------------------------
-- Snapshot metadata generation (server-computing variant)
-- ---------------------------------------------------------------------------

/-- The derived `(timestamp, buildNumber)` pair. -/
structure SnapshotMetadata where
  timestamp : String
  buildNumber : Nat
deriving DecidableEq, Repr

/-- The UTC components a JS `Date` exposes through `getUTCFullYear`,
`getUTCMonth` (0-based), `getUTCDate`, `getUTCHours`, `getUTCMinutes`,
`getUTCSeconds`. -/
structure JSDate where
  year : Nat
  month : Nat
  day : Nat
  hours : Nat
  minutes : Nat
  seconds : Nat
deriving DecidableEq, Repr

/-- JS `String(n).padStart(2, '0')`. -/
def pad2 (n : Nat) : String :=
  let s := toString n
  if s.length < 2 then "0" ++ s else s

/-- `formatTimestamp`: the UTC timestamp string `yyyyMMdd.HHmmss` (the month
is `getUTCMonth() + 1`; every component but the year is padded to two
digits). -/
def formatTimestamp (date : JSDate) : String :=
  toString date.year ++ pad2 (date.month + 1) ++ pad2 date.day ++ "." ++
    pad2 date.hours ++ pad2 date.minutes ++ pad2 date.seconds

/-- `getOrGenerateSnapshotMetadata`, with the read-and-parse of the
version-level `maven-metadata.xml` abstracted into the argument `existing`
(`none` = no metadata object at the key): with no existing metadata the pair
is `(formatTimestamp now, 1)`; when the existing snapshot timestamp equals
the freshly formatted `now`, the timestamp is reused and the build number —
`(existingBuildNumber || 0) + 1` — increments; otherwise the new timestamp is
used and the build number resets to 1. -/
def getOrGenerateSnapshotMetadata (existing : Option MavenMetadata)
    (now : JSDate) : SnapshotMetadata :=
  match existing with
  | some parsed =>
    let existingTimestamp := metaSnapshotTimestamp parsed
    let existingBuildNumber := metaSnapshotBuildNumber parsed
    let newTimestamp := formatTimestamp now
    match existingTimestamp with
    | some ts =>
      if ts = newTimestamp then
        { timestamp := ts, buildNumber := existingBuildNumber.getD 0 + 1 }
      else
        { timestamp := newTimestamp, buildNumber := 1 }
    | none => { timestamp := newTimestamp, buildNumber := 1 }
  | none => { timestamp := formatTimestamp now, buildNumber := 1 }

/-- JS `s.replace('.', '')`: remove the first occurrence only. -/
def jsRemoveFirst (c : Char) : List Char → List Char
  | [] => []
  | x :: xs => if x = c then xs else x :: jsRemoveFirst c xs

/-- `formatTimestamp(new Date()).replace('.', '')` at the `String` level. -/
def jsRemoveFirstStr (c : Char) (s : String) : String :=
  ⟨jsRemoveFirst c s.data⟩

/-- JS `groupPath.replace(/\//g, '.')`: global single-character replace. -/
def jsReplaceAll (a b : Char) (s : String) : String :=
  ⟨s.data.map (fun c => if c = a then b else c)⟩

/-- The document `updateSnapshotMetadata` builds and serializes: the object
literal at the end of the function, with every field present. `versions` is
`snapshotVersions.map((sv) => sv.value)`, whose entries may be `undefined`
for preserved entries that lacked a `value`. -/
structure BuiltSnapshotDoc where
  groupId : String
  artifactId : String
  version : String
  snapTimestamp : String
  snapBuildNumber : Nat
  lastUpdated : String
  snapshotVersions : List SnapshotVersionEntry
  versions : List (Option String)
  latest : String
  release : String
deriving DecidableEq, Repr

/-- `updateSnapshotMetadata`, with the read-and-parse of the existing
version-level metadata abstracted into `existing` and the wall clock into
`now`: normalize the prior `snapshotVersion` entries, upsert the entry for
this extension (matching `sv.extension === extension && sv.classifier ===
(extension === 'jar' ? undefined : extension)`; the new entry carries no
classifier), and rebuild the whole document with `versions` = the entry
values and `latest` = `release` = the raw version string. -/
def updateSnapshotMetadata (groupPath artifactId version baseVersion : String)
    (sm : SnapshotMetadata) (extension : String)
    (existing : Option MavenMetadata) (now : JSDate) : BuiltSnapshotDoc :=
  let rawVersions := existing.bind metaSnapshotVersionsField
  let snapshotVersions := normalizeOneOrMany rawVersions
  let timestampedValue := baseVersion ++ "-" ++ sm.timestamp ++ "-" ++ toString sm.buildNumber
  let lastUpdated := jsRemoveFirstStr '.' (formatTimestamp now)
  let newEntry : SnapshotVersionEntry :=
    { extension := some extension, classifier := none,
      value := some timestampedValue, updated := some lastUpdated }
  let existingVersionIndex := snapshotVersions.findIdx? (fun sv =>
    sv.extension == some extension &&
      sv.classifier == (if extension == "jar" then none else some extension))
  let snapshotVersions' :=
    match existingVersionIndex with
    | some i => snapshotVersions.set i newEntry
    | none => snapshotVersions ++ [newEntry]
  { groupId := jsReplaceAll '/' '.' groupPath
    artifactId := artifactId
    version := version
    snapTimestamp := sm.timestamp
    snapBuildNumber := sm.buildNumber
    lastUpdated := lastUpdated
    snapshotVersions := snapshotVersions'
    versions := snapshotVersions'.map (·.value)
    latest := version
    release := version }

-- ---------------------------------------------------------------------------
-- Query-time version sort (handleGetVersions)
-- ---------------------------------------------------------------------------

/-- JS `Number(component)` restricted to the strings the version sort feeds
it: the empty string converts to 0, a string of decimal digits to its value,
and anything else (a component carrying `+build` metadata, a word, a sign or
a decimal point) to `NaN`, modelled as `none`. -/
def jsNumber (s : String) : Option Int :=
  if s.data = [] then some 0
  else if s.data.all (·.isDigit) then
    some ((s.data.foldl (fun acc c => acc * 10 + (c.toNat - 48)) 0 : Nat) : Int)
  else none

/-- `version.split('.').map(Number)`. -/
def versionParts (s : String) : List (Option Int) :=
  (jsSplit '.' s).map jsNumber

/-- The tail of the comparator loop once `partsA` is exhausted: `numA` reads
as 0 at every remaining index. -/
def cmpRest : List (Option Int) → Int
  | [] => 0
  | y :: ys => if (0 : Int) ≠ y.getD 0 then y.getD 0 - 0 else cmpRest ys

/-- The comparator loop of `handleGetVersions`: walk both part lists, where
`partsA[i] || 0` coerces a missing index and `NaN` alike to 0, and return
`numB - numA` at the first differing index, else 0. -/
def cmpLoop : List (Option Int) → List (Option Int) → Int
  | [], ys => cmpRest ys
  | x :: xs, [] =>
    if x.getD 0 ≠ (0 : Int) then 0 - x.getD 0 else cmpLoop xs []
  | x :: xs, y :: ys =>
    if x.getD 0 ≠ y.getD 0 then y.getD 0 - x.getD 0 else cmpLoop xs ys

/-- The sort comparator of `handleGetVersions` (descending). -/
def compareVersionsDesc (a b : String) : Int :=
  cmpLoop (versionParts a) (versionParts b)

/-- `versionsArray.sort(comparator)`: JS `Array.prototype.sort` is a stable
sort by the comparator, embedded as Mathlib's (stable) insertion sort on the
relation `comparator a b ≤ 0`. -/
def jsSortDesc (versions : List String) : List String :=
  List.insertionSort (fun a b => compareVersionsDesc a b ≤ 0) versions

/-- The frontend's `compareVersions` helper (part_002): strip build metadata
after a literal `'+'`, then compare dot-separated components with `??`
(missing index → 0, `NaN` preserved). It realizes the spec's description of
the sort, so its descending stable sort serves as the spec-side reference
for the refinement comparison of claim C5. -/
def specStripSortDesc (versions : List String) : List String :=
  let strip := fun (s : String) => (jsSplit '+' s).getD 0 ""
  let parts := fun (s : String) => (jsSplit '.' (strip s)).map jsNumber
  List.insertionSort (fun a b => cmpLoop (parts a) (parts b) ≤ 0) versions

-- ---------------------------------------------------------------------------
-- handleGetVersions
-- ---------------------------------------------------------------------------

/-- JS `a || b` on `string | undefined` values. -/
def jsOrStr (a b : Option String) : Option String :=
  if strTruthy a then a else b

/-- Falsiness of `parsed?.metadata?.versioning?.versions?.version`: missing
or a scalar empty string is falsy; an array — even an empty one — is
truthy. -/
def versionsFieldFalsy : Option (OneOrMany String) → Bool
  | none => true
  | some (.one s) => s == ""
  | some (.many _) => false

/-- One version with its badges, as returned by `handleGetVersions`. -/
structure VersionBadge where
  version : String
  latest : Bool
  release : Bool
deriving DecidableEq, Repr

/-- The outcome of the versions query. -/
inductive VersionsResult : Type
  | err (status : Nat) (msg : String)
  | ok (l : List VersionBadge)
deriving DecidableEq, Repr

/-- `handleGetVersions`, with the metadata fetch abstracted into `fetched`:
`none` = no object at `{groupPath}/{artifact}/maven-metadata.xml`,
`some none` = the object exists but `parseMavenMetadata` returned `null`,
`some (some m)` = it parsed to `m`. Missing or falsy query parameters give
400; a missing object gives 404; an unusable versions field gives 500; else
the versions are normalized, sorted descending and annotated with
`latest`/`release` badges (where `latest` falls back to `release`). -/
def handleGetVersions (group artifact : Option String)
    (fetched : Option (Option MavenMetadata)) : VersionsResult :=
  if !(strTruthy group) || !(strTruthy artifact) then
    .err 400 "Missing required parameters: group, artifact"
  else
    match fetched with
    | none => .err 404 "Artifact not found"
    | some parsed =>
      let field := parsed.bind metaVersionsField
      if versionsFieldFalsy field then .err 500 "Invalid maven-metadata.xml"
      else
        let versionsArray := normalizeOneOrMany field
        let versioning := parsed.bind metaVersioning
        let latest := jsOrStr (versioning.bind (·.latest)) (versioning.bind (·.release))
        let release := versioning.bind (·.release)
        let sorted := jsSortDesc versionsArray
        .ok (sorted.map (fun version =>
          ⟨version, latest == some version, release == some version⟩))

-- ---------------------------------------------------------------------------
-- handlePurge
-- ---------------------------------------------------------------------------

/-- Fuelled page chunking (the fuel bounds the number of pages; `pagesOf`
supplies enough). -/
def pagesOfAux {α : Type} (n : Nat) : Nat → List α → List (List α)
  | 0, l => [l]
  | fuel + 1, l =>
    if l.length ≤ n + 1 then [l]
    else l.take (n + 1) :: pagesOfAux n fuel (l.drop (n + 1))

/-- The keys matching `fullPrefix`, chunked into the successive pages the
cursor loop's `env.R2.list` calls return; the page size is `n + 1` (R2's
`limit`), and the last page is the one the store reports untruncated. An
empty match set still takes one (empty) list call. -/
def pagesOf {α : Type} (n : Nat) (l : List α) : List (List α) :=
  pagesOfAux n l.length l

/-- The purge loop over one root's pages: iteration `i` either throws
(`faults i`, modelling a storage error on the list or delete call — the
loop aborts, nothing of this iteration deleted, `true` = error) or deletes
the page's keys and continues while the listing was truncated. -/
def runPages (faults : Nat → Bool) : Nat → List (List String) → List String × Bool
  | _, [] => ([], false)
  | i, [p] => if faults i then ([], true) else (p, false)
  | i, p :: q :: ps =>
    if faults i then ([], true)
    else
      let r := runPages faults (i + 1) (q :: ps)
      (p ++ r.1, r.2)

/-- One root of `handlePurge`'s loop: list-and-delete every key under
`fullPrefix`, in pages, until no truncation; returns the keys deleted and
whether the root's try/catch caught an error. -/
def purgeRoot (faults : Nat → Bool) (n : Nat) (fullPrefix : String)
    (store : List String) : List String × Bool :=
  runPages faults 0 (pagesOf n (store.filter (fun k => jsStartsWith k fullPrefix)))

/-- The outcome of `handlePurge`: HTTP status, the JSON body's `success`,
`deleted` and `errors` fields, and the backing store after the deletions. -/
structure PurgeResult where
  status : Nat
  success : Bool
  deleted : List String
  errors : List String
  store : List String
deriving DecidableEq, Repr

/-- `handlePurge`: authenticate; require a truthy `prefix` parameter;
convert dots to slashes; require at least 3 characters; then for each of
the two roots `releases`, `snapshots` run the cursor loop, collecting
deleted keys and per-root failure messages; `success` is `errors.length ===
0`. The store only ever shrinks by exactly the deleted keys — a failure on
the snapshots root does not restore keys already deleted from the releases
root. `n` is the page size minus one and `faultsRel`/`faultsSnap` the
storage-fault schedules of the two roots' loops. -/
def handlePurge (authOk : Bool) (pfx : Option String) (n : Nat)
    (faultsRel faultsSnap : Nat → Bool) (store : List String) : PurgeResult :=
  if !authOk then ⟨401, false, [], [], store⟩
  else if !strTruthy pfx then ⟨400, false, [], [], store⟩
  else
    let pathPrefix := jsReplaceAll '.' '/' (pfx.getD "")
    if pathPrefix.length < 3 then ⟨400, false, [], [], store⟩
    else
      let relPrefix := "releases/" ++ pathPrefix ++ "/"
      let snapPrefix := "snapshots/" ++ pathPrefix ++ "/"
      let rel := purgeRoot faultsRel n relPrefix store
      let store1 := store.filter (fun k => !(rel.1.contains k))
      let snap := purgeRoot faultsSnap n snapPrefix store1
      let store2 := store1.filter (fun k => !(snap.1.contains k))
      let deletedKeys := rel.1 ++ snap.1
      let errors :=
        (if rel.2 then ["Failed to purge " ++ relPrefix] else []) ++
          (if snap.2 then ["Failed to purge " ++ snapPrefix] else [])
      ⟨200, errors.isEmpty, deletedKeys, errors, store2⟩

-- ---------------------------------------------------------------------------
-- String and path lemmas
-- ---------------------------------------------------------------------------

theorem splitOnChar_of_not_mem {c : Char} {l : List Char} (h : c ∉ l) :
    splitOnChar c l = [l] := by
  induction l with
  | nil => rfl
  | cons x xs ih =>
    simp only [splitOnChar]
    have hx : ¬ x = c := fun hxc => h (hxc ▸ List.mem_cons_self x xs)
    rw [if_neg hx, ih (fun hm => h (List.mem_cons_of_mem x hm))]

theorem splitOnChar_append_cons {c : Char} {p : List Char} (rest : List Char)
    (hp : c ∉ p) : splitOnChar c (p ++ c :: rest) = p :: splitOnChar c rest := by
  induction p with
  | nil => simp [splitOnChar]
  | cons x xs ih =>
    have hx : ¬ x = c := fun hxc => hp (hxc ▸ List.mem_cons_self x xs)
    have ih' := ih (fun hm => hp (List.mem_cons_of_mem x hm))
    simp [splitOnChar, hx, ih']

/-- `⟨s.data⟩ = s`: structure eta for `String`. -/
theorem String.mk_data (s : String) : (⟨s.data⟩ : String) = s := rfl

/-- Splitting a slash-free-segment join recovers the segments. -/
theorem jsSplit_jsJoin {c : Char} {sep : String} (hsep : sep.data = [c])
    (parts : List String) (hne : parts ≠ [])
    (h : ∀ p ∈ parts, c ∉ p.data) :
    jsSplit c (jsJoin sep parts) = parts := by
  induction parts with
  | nil => exact absurd rfl hne
  | cons p ps ih =>
    cases ps with
    | nil =>
      have hp : c ∉ p.data := h p (List.mem_cons_self p [])
      simp only [jsJoin, jsSplit]
      rw [splitOnChar_of_not_mem hp]
      simp [String.mk_data]
    | cons q qs =>
      have hp : c ∉ p.data := h p (List.mem_cons_self _ _)
      simp only [jsJoin, jsSplit]
      have hdata : (p ++ sep ++ jsJoin sep (q :: qs)).data
          = p.data ++ c :: (jsJoin sep (q :: qs)).data := by
        simp [String.data_append, hsep]
      rw [hdata, splitOnChar_append_cons _ hp]
      have ihq := ih (by simp) (fun r hr => h r (List.mem_cons_of_mem p hr))
      simp only [jsSplit] at ihq
      simp [ihq, String.mk_data]

/-- A string prefixed by `pre` starts with `pre`. -/
theorem jsStartsWith_append (pre rest : String) :
    jsStartsWith (pre ++ rest) pre = true := by
  simp [jsStartsWith, String.data_append, List.isPrefixOf_iff_prefix, List.prefix_append]

/-- `substring` removes exactly the prefix. -/
theorem jsSubstring_append (pre rest : String) :
    jsSubstring (pre ++ rest) pre.data.length = rest := by
  simp only [jsSubstring, String.data_append, List.drop_left]

theorem getD_append3_last (gs : List String) (a v f d : String) :
    (gs ++ [a, v, f]).getD (gs.length + 2) d = f := by
  rw [List.getD_eq_getElem?_getD, List.getElem?_append_right (by omega)]
  simp

theorem getD_append3_mid (gs : List String) (a v f d : String) :
    (gs ++ [a, v, f]).getD (gs.length + 1) d = v := by
  rw [List.getD_eq_getElem?_getD, List.getElem?_append_right (by omega)]
  simp

theorem getD_append3_first (gs : List String) (a v f d : String) :
    (gs ++ [a, v, f]).getD gs.length d = a := by
  rw [List.getD_eq_getElem?_getD, List.getElem?_append_right (by omega)]
  simp

theorem take_append3 (gs : List String) (a v f : String) :
    (gs ++ [a, v, f]).take gs.length = gs := List.take_left gs [a, v, f]

/-- `handleReleasePut` on an authenticated, well-formed
`/releases/{gs...}/{a}/{v}/{f}` request reduces to the
extension/immutability decision on the reconstructed coordinates. -/
theorem handleReleasePut_eq {γ : Type} (gs : List String) (a v f : String)
    (body : γ) (store : Store γ) (hgs : gs ≠ [])
    (hns : ∀ p ∈ gs ++ [a, v, f], '/' ∉ p.data) :
    handleReleasePut true ("/releases/" ++ jsJoin "/" (gs ++ [a, v, f])) body store =
      (let r2Key := jsJoin "/" gs ++ "/" ++ a ++ "/" ++ v ++ "/" ++ f
       if !hasValidExtension f then (⟨400, "Invalid file type"⟩, store)
       else if releaseExistenceChecked f && (getStore r2Key store).isSome then
         (⟨409, "File " ++ f ++ " already exists"⟩, store)
       else (⟨200, "OK"⟩, putStore r2Key body store)) := by
  have hne : gs ++ [a, v, f] ≠ [] := by simp
  have hsplit : jsSplit '/' (jsJoin "/" (gs ++ [a, v, f])) = gs ++ [a, v, f] :=
    jsSplit_jsJoin rfl _ hne hns
  have hsub : jsSubstring ("/releases/" ++ jsJoin "/" (gs ++ [a, v, f])) 10
      = jsJoin "/" (gs ++ [a, v, f]) := jsSubstring_append "/releases/" _
  have hlen : (gs ++ [a, v, f]).length = gs.length + 3 := by simp
  have hgs1 : 1 ≤ gs.length := by
    cases gs with
    | nil => exact absurd rfl hgs
    | cons x xs => simp
  simp only [handleReleasePut, Bool.not_true, Bool.false_eq_true, if_false,
    jsStartsWith_append, hsub, hsplit, hlen]
  rw [if_neg (by omega)]
  have h1 : gs.length + 3 - 1 = gs.length + 2 := by omega
  have h2 : gs.length + 3 - 2 = gs.length + 1 := by omega
  rw [h1, h2]
  have h3 : gs.length + 1 - 1 = gs.length := by omega
  rw [h3, getD_append3_last, getD_append3_mid, getD_append3_first,
    take_append3]

-- ---------------------------------------------------------------------------
-- C3: release immutability
-- ---------------------------------------------------------------------------

/-- C3 (amended): release immutability with exemptions, as the code enforces
it. For an authenticated release upload with a valid extension: a file whose
name passes the existence-check guard (`releaseExistenceChecked` — neither a
checksum `.sha1`/`.sha256`/`.sha512`/`.md5` nor a `maven-metadata` file;
`.asc` signature files are NOT exempt) is rejected 409 "already exists" with
nothing stored when its exact key is present, and stored with 200 when
absent, so publishing the same checked file key twice yields 409 on the
second attempt; a checksum or metadata file skips the check and is stored
with 200 every time. -/
theorem handleReleasePut_immutability {γ : Type} (gs : List String)
    (a v f : String) (body body' : γ) (store : Store γ) (hgs : gs ≠ [])
    (hns : ∀ p ∈ gs ++ [a, v, f], '/' ∉ p.data)
    (hext : hasValidExtension f = true) :
    let path := "/releases/" ++ jsJoin "/" (gs ++ [a, v, f])
    let key := jsJoin "/" gs ++ "/" ++ a ++ "/" ++ v ++ "/" ++ f
    (releaseExistenceChecked f = true → (getStore key store).isSome = true →
        handleReleasePut true path body store
          = (⟨409, "File " ++ f ++ " already exists"⟩, store)) ∧
    (getStore key store = none →
        handleReleasePut true path body store
          = (⟨200, "OK"⟩, putStore key body store)) ∧
    (releaseExistenceChecked f = true → getStore key store = none →
        (handleReleasePut true path body'
            (handleReleasePut true path body store).2).1
          = ⟨409, "File " ++ f ++ " already exists"⟩) ∧
    (releaseExistenceChecked f = false →
        handleReleasePut true path body store
          = (⟨200, "OK"⟩, putStore key body store)) := by
  intro path key
  have heq := fun (b : γ) (st : Store γ) =>
    handleReleasePut_eq gs a v f b st hgs hns
  refine ⟨?_, ?_, ?_, ?_⟩
  · intro hchk hsome
    rw [heq]
    simp [hext, hchk, hsome]
  · intro hnone
    rw [heq]
    simp [hext, hnone]
  · intro hchk hnone
    rw [heq, heq]
    simp [hext, hchk, hnone, getStore_put_self]
  · intro hchk
    rw [heq]
    simp [hext, hchk]

/-- Witness for C3 at concrete coordinates: the first publish of
`amber-1.0.0.jar` to an empty store succeeds and the second attempt at the
same key is rejected 409. -/
theorem handleReleasePut_immutability_witness :
    (handleReleasePut (γ := String) true
        ("/releases/" ++ jsJoin "/" (["com", "iamkaf"] ++ ["amber", "1.0.0", "amber-1.0.0.jar"]))
        "b1" []
      = (⟨200, "OK"⟩,
          putStore (jsJoin "/" ["com", "iamkaf"] ++ "/" ++ "amber" ++ "/" ++ "1.0.0" ++ "/" ++ "amber-1.0.0.jar") "b1" [])) ∧
    (handleReleasePut true
        ("/releases/" ++ jsJoin "/" (["com", "iamkaf"] ++ ["amber", "1.0.0", "amber-1.0.0.jar"]))
        "b2"
        (handleReleasePut (γ := String) true
            ("/releases/" ++ jsJoin "/" (["com", "iamkaf"] ++ ["amber", "1.0.0", "amber-1.0.0.jar"]))
            "b1" []).2).1
      = ⟨409, "File " ++ "amber-1.0.0.jar" ++ " already exists"⟩ := by
  have h := handleReleasePut_immutability (γ := String) ["com", "iamkaf"]
    "amber" "1.0.0" "amber-1.0.0.jar" "b1" "b2" [] (by decide) (by decide) (by decide)
  exact ⟨h.2.1 rfl, h.2.2.1 (by decide) rfl⟩

/-- C3 counterexample: the claim exempts signature files from the existence
check, but `.asc` files are checked — re-uploading
`amber-1.0.0.jar.asc` is rejected 409 on the second attempt instead of
succeeding with 200 every time. -/
theorem release_asc_reupload_conflict :
    let path := "/releases/com/iamkaf/amber/1.0.0/amber-1.0.0.jar.asc"
    let first := handleReleasePut (γ := String) true path "sig1" []
    jsEndsWith "amber-1.0.0.jar.asc" ".asc" = true ∧
    jsEndsWith "amber-1.0.0.jar.asc" ".sha1" = false ∧
    jsIncludes "amber-1.0.0.jar.asc" "maven-metadata" = false ∧
    first.1.status = 200 ∧
    (handleReleasePut true path "sig2" first.2).1.status = 409 := by
  exact ⟨by decide, by decide, by decide, by decide, by decide⟩

-- ---------------------------------------------------------------------------
-- C2: release-side metadata maintenance
-- ---------------------------------------------------------------------------

/-- C2 (amended): a successful release publish stores only the uploaded
object; the server performs no artifact-level metadata maintenance. Every
key other than the uploaded one — in particular any stored
`maven-metadata.xml` document — is unchanged by `handleReleasePut`, so no
version is added to `versions` and `latest`/`release` are not moved.
Artifact metadata changes only when the client itself uploads a
`maven-metadata.xml` file, which is exempt from the existence check and
stored verbatim at its literal key. -/
theorem handleReleasePut_no_metadata_maintenance {γ : Type} (gs : List String)
    (a v f : String) (body : γ) (store : Store γ) (hgs : gs ≠ [])
    (hns : ∀ p ∈ gs ++ [a, v, f], '/' ∉ p.data) :
    let path := "/releases/" ++ jsJoin "/" (gs ++ [a, v, f])
    let key := jsJoin "/" gs ++ "/" ++ a ++ "/" ++ v ++ "/" ++ f
    (∀ k : String, k ≠ key →
        getStore k (handleReleasePut true path body store).2 = getStore k store) ∧
    (handleReleasePut true
        ("/releases/" ++ jsJoin "/" (gs ++ [a, v, "maven-metadata.xml"])) body store
      = (⟨200, "OK"⟩,
          putStore (jsJoin "/" gs ++ "/" ++ a ++ "/" ++ v ++ "/" ++ "maven-metadata.xml")
            body store)) := by
  intro path key
  constructor
  · intro k hk
    rw [handleReleasePut_eq gs a v f body store hgs hns]
    by_cases h1 : (!hasValidExtension f) = true
    · simp [h1]
    · by_cases h2 : (releaseExistenceChecked f && (getStore key store).isSome) = true
      · simp [h1, h2]
      · simp [h1, h2, getStore_put_ne body store hk]
  · have hns' : ∀ p ∈ gs ++ [a, v, "maven-metadata.xml"], '/' ∉ p.data := by
      intro p hp
      rcases List.mem_append.mp hp with h | h
      · exact hns p (List.mem_append.mpr (Or.inl h))
      · rcases List.mem_cons.mp h with h' | h'
        · exact h' ▸ hns a (List.mem_append.mpr (Or.inr (by simp)))
        · rcases List.mem_cons.mp h' with h'' | h''
          · exact h'' ▸ hns v (List.mem_append.mpr (Or.inr (by simp)))
          · have : p = "maven-metadata.xml" := by simpa using h''
            subst this
            decide
    rw [handleReleasePut_eq gs a v "maven-metadata.xml" body store hgs hns']
    have hvx : hasValidExtension "maven-metadata.xml" = true := by decide
    have hchk : releaseExistenceChecked "maven-metadata.xml" = false := by decide
    simp [hvx, hchk]

/-- Witness for C2 at concrete coordinates: publishing
`amber-1.1.0.jar` leaves the artifact-level metadata key untouched, and a
client-side metadata upload is stored verbatim. -/
theorem handleReleasePut_no_metadata_maintenance_witness :
    (getStore "com/iamkaf/amber/maven-metadata.xml"
        (handleReleasePut (γ := String) true
          ("/releases/" ++ jsJoin "/" (["com", "iamkaf"] ++ ["amber", "1.1.0", "amber-1.1.0.jar"]))
          "jarbytes"
          [("com/iamkaf/amber/maven-metadata.xml", "oldmeta")]).2
      = getStore "com/iamkaf/amber/maven-metadata.xml"
          [("com/iamkaf/amber/maven-metadata.xml", "oldmeta")]) ∧
    (handleReleasePut (γ := String) true
        ("/releases/" ++ jsJoin "/" (["com", "iamkaf"] ++ ["amber", "1.1.0", "maven-metadata.xml"]))
        "newmeta" [("com/iamkaf/amber/maven-metadata.xml", "oldmeta")]
      = (⟨200, "OK"⟩,
          putStore (jsJoin "/" ["com", "iamkaf"] ++ "/" ++ "amber" ++ "/" ++ "1.1.0" ++ "/" ++ "maven-metadata.xml")
            "newmeta" [("com/iamkaf/amber/maven-metadata.xml", "oldmeta")])) := by
  have h := handleReleasePut_no_metadata_maintenance (γ := String) ["com", "iamkaf"]
    "amber" "1.1.0" "amber-1.1.0.jar" "jarbytes"
    [("com/iamkaf/amber/maven-metadata.xml", "oldmeta")] (by decide) (by decide)
  have h2 := handleReleasePut_no_metadata_maintenance (γ := String) ["com", "iamkaf"]
    "amber" "1.1.0" "maven-metadata.xml" "newmeta"
    [("com/iamkaf/amber/maven-metadata.xml", "oldmeta")] (by decide) (by decide)
  exact ⟨h.1 "com/iamkaf/amber/maven-metadata.xml" (by decide), h2.2⟩

/-- C2 counterexample: a successful release publish of the previously absent
version `1.1.0` (status 200) leaves the artifact-level metadata exactly as
it was: its versions list still lacks `1.1.0`, and `latest`/`release` still
point at `1.0.0`. The content type instantiates the store's contents with a
(versions, latest, release) triple standing for the parsed metadata
document. -/
theorem release_publish_leaves_metadata_stale :
    let meta0 : List String × Option String × Option String :=
      (["1.0.0"], some "1.0.0", some "1.0.0")
    let store0 : Store (List String × Option String × Option String) :=
      [("com/iamkaf/amber/maven-metadata.xml", meta0)]
    let r := handleReleasePut true "/releases/com/iamkaf/amber/1.1.0/amber-1.1.0.jar"
      (([], none, none) : List String × Option String × Option String) store0
    (store0.all fun kv => !(jsStartsWith kv.1 "com/iamkaf/amber/1.1.0/")) = true ∧
    r.1.status = 200 ∧
    getStore "com/iamkaf/amber/maven-metadata.xml" r.2 = some meta0 ∧
    ¬ ("1.1.0" ∈ meta0.1) ∧
    meta0.2.1 ≠ some "1.1.0" ∧ meta0.2.2 ≠ some "1.1.0" := by
  exact ⟨by decide, by decide, by decide, by decide, by decide, by decide⟩

-- ---------------------------------------------------------------------------
-- C6: snapshot upload validation
-- ---------------------------------------------------------------------------

/-- `handleSnapshotPut` on an authenticated, well-formed
`/snapshots/{gs...}/{a}/{v}/{f}` request (≥ 4 segments) reduces to the
`-SNAPSHOT` decision on the reconstructed coordinates. -/
theorem handleSnapshotPut_eq {γ : Type} (gs : List String) (a v f : String)
    (body : γ) (store : Store γ) (hgs : gs ≠ [])
    (hns : ∀ p ∈ gs ++ [a, v, f], '/' ∉ p.data) :
    handleSnapshotPut true ("/snapshots/" ++ jsJoin "/" (gs ++ [a, v, f])) body store =
      (if !jsEndsWith v "-SNAPSHOT" && !jsIncludes f "maven-metadata" then
        (⟨400, "Version must end with -SNAPSHOT"⟩, store)
      else
        (⟨200, "OK"⟩,
          putStore (jsJoin "/" gs ++ "/" ++ a ++ "/" ++ v ++ "/" ++ f) body store)) := by
  have hne : gs ++ [a, v, f] ≠ [] := by simp
  have hsplit : jsSplit '/' (jsJoin "/" (gs ++ [a, v, f])) = gs ++ [a, v, f] :=
    jsSplit_jsJoin rfl _ hne hns
  have hsub : jsSubstring ("/snapshots/" ++ jsJoin "/" (gs ++ [a, v, f])) 11
      = jsJoin "/" (gs ++ [a, v, f]) := jsSubstring_append "/snapshots/" _
  have hlen : (gs ++ [a, v, f]).length = gs.length + 3 := by simp
  have hgs1 : 1 ≤ gs.length := by
    cases gs with
    | nil => exact absurd rfl hgs
    | cons x xs => simp
  have hbeq : ((gs.length + 3 : Nat) == 3) = false :=
    beq_eq_false_iff_ne.mpr (by omega)
  simp only [handleSnapshotPut, Bool.not_true, Bool.false_eq_true, if_false,
    jsStartsWith_append, hsub, hsplit, hlen]
  rw [if_neg (by omega), hbeq]
  simp only [Bool.false_and, Bool.false_eq_true, if_false]
  rw [if_neg (by omega)]
  have h1 : gs.length + 3 - 1 = gs.length + 2 := by omega
  have h2 : gs.length + 3 - 2 = gs.length + 1 := by omega
  have h3 : gs.length + 3 - 3 = gs.length := by omega
  rw [h1, h2, h3, getD_append3_last, getD_append3_mid, getD_append3_first,
    take_append3]

/-- The 3-segment special case of `handleSnapshotPut`:
`/snapshots/{g}/{a}/maven-metadata.xml` stores the body verbatim at
`{g}/{a}/maven-metadata.xml`. -/
theorem handleSnapshotPut_meta3_eq {γ : Type} (g a : String) (body : γ)
    (store : Store γ) (hg : '/' ∉ g.data) (ha : '/' ∉ a.data) :
    handleSnapshotPut true ("/snapshots/" ++ jsJoin "/" [g, a, "maven-metadata.xml"]) body store
      = (⟨200, "OK"⟩, putStore (g ++ "/" ++ a ++ "/" ++ "maven-metadata.xml") body store) := by
  have hns : ∀ p ∈ [g, a, "maven-metadata.xml"], '/' ∉ p.data := by
    intro p hp
    rcases List.mem_cons.mp hp with h | h
    · exact h ▸ hg
    · rcases List.mem_cons.mp h with h' | h'
      · exact h' ▸ ha
      · have : p = "maven-metadata.xml" := by simpa using h'
        subst this
        decide
  have hsplit : jsSplit '/' (jsJoin "/" [g, a, "maven-metadata.xml"])
      = [g, a, "maven-metadata.xml"] := jsSplit_jsJoin rfl _ (by simp) hns
  have hsub : jsSubstring ("/snapshots/" ++ jsJoin "/" [g, a, "maven-metadata.xml"]) 11
      = jsJoin "/" [g, a, "maven-metadata.xml"] := jsSubstring_append "/snapshots/" _
  simp only [handleSnapshotPut, Bool.not_true, Bool.false_eq_true, if_false,
    jsStartsWith_append, hsub, hsplit]
  norm_num
  rfl

/-- C6: snapshot upload validation. For an authenticated upload through the
trusting `handleSnapshotPut`: (i) with ≥ 4 well-formed segments, a version
not ending in `-SNAPSHOT` whose filename is not a metadata file is rejected
400 with nothing stored; (ii) the 3-segment special path
`/snapshots/{g}/{a}/maven-metadata.xml` stores the bytes verbatim at
`{g}/{a}/maven-metadata.xml` with 200; (iii) a valid `-SNAPSHOT` upload is
stored exactly under its caller-supplied filename with 200. -/
theorem handleSnapshotPut_validation {γ : Type} (gs : List String)
    (g a v f : String) (body : γ) (store : Store γ) (hgs : gs ≠ [])
    (hns : ∀ p ∈ gs ++ [a, v, f], '/' ∉ p.data)
    (hg : '/' ∉ g.data) (ha : '/' ∉ a.data) :
    let path := "/snapshots/" ++ jsJoin "/" (gs ++ [a, v, f])
    (jsEndsWith v "-SNAPSHOT" = false → jsIncludes f "maven-metadata" = false →
        handleSnapshotPut true path body store
          = (⟨400, "Version must end with -SNAPSHOT"⟩, store)) ∧
    (handleSnapshotPut true ("/snapshots/" ++ jsJoin "/" [g, a, "maven-metadata.xml"]) body store
      = (⟨200, "OK"⟩, putStore (g ++ "/" ++ a ++ "/" ++ "maven-metadata.xml") body store)) ∧
    (jsEndsWith v "-SNAPSHOT" = true →
        handleSnapshotPut true path body store
          = (⟨200, "OK"⟩,
              putStore (jsJoin "/" gs ++ "/" ++ a ++ "/" ++ v ++ "/" ++ f) body store)) := by
  intro path
  refine ⟨?_, handleSnapshotPut_meta3_eq g a body store hg ha, ?_⟩
  · intro hv hf
    rw [handleSnapshotPut_eq gs a v f body store hgs hns]
    simp [hv, hf]
  · intro hv
    rw [handleSnapshotPut_eq gs a v f body store hgs hns]
    simp [hv]

/-- Witness for C6 at concrete inputs: a non-`-SNAPSHOT` version is rejected
400, the 3-segment metadata path stores verbatim, and a `-SNAPSHOT` upload
is stored under the caller's filename. -/
theorem handleSnapshotPut_validation_witness :
    (handleSnapshotPut (γ := String) true
        ("/snapshots/" ++ jsJoin "/" (["com", "iamkaf"] ++ ["amber", "1.0", "amber-1.0.jar"]))
        "b" []
      = (⟨400, "Version must end with -SNAPSHOT"⟩, [])) ∧
    (handleSnapshotPut (γ := String) true
        ("/snapshots/" ++ jsJoin "/" ["com", "amber", "maven-metadata.xml"]) "b" []
      = (⟨200, "OK"⟩,
          putStore ("com" ++ "/" ++ "amber" ++ "/" ++ "maven-metadata.xml") "b" [])) ∧
    (handleSnapshotPut (γ := String) true
        ("/snapshots/" ++ jsJoin "/" (["com", "iamkaf"] ++ ["amber", "1.0-SNAPSHOT", "amber-1.0-SNAPSHOT.jar"]))
        "b" []
      = (⟨200, "OK"⟩,
          putStore (jsJoin "/" ["com", "iamkaf"] ++ "/" ++ "amber" ++ "/" ++ "1.0-SNAPSHOT" ++ "/" ++ "amber-1.0-SNAPSHOT.jar")
            "b" [])) := by
  have h1 := handleSnapshotPut_validation (γ := String) ["com", "iamkaf"]
    "com" "amber" "1.0" "amber-1.0.jar" "b" [] (by decide) (by decide) (by decide) (by decide)
  have h2 := handleSnapshotPut_validation (γ := String) ["com", "iamkaf"]
    "com" "amber" "1.0-SNAPSHOT" "amber-1.0-SNAPSHOT.jar" "b" [] (by decide) (by decide)
    (by decide) (by decide)
  exact ⟨h1.1 (by decide) (by decide), h1.2.1, h2.2.2 (by decide)⟩

-- ---------------------------------------------------------------------------
-- C1: snapshot build-number sequencing
-- ---------------------------------------------------------------------------

/-- C1: snapshot build-number sequencing on the server-computing path. With
no version-level metadata the derived pair is `(formatTimestamp now, 1)`
(`formatTimestamp` being the UTC `yyyyMMdd.HHmmss` formatter); when the
existing metadata's snapshot timestamp string equals the freshly computed
`now` string the timestamp is reused and the build number becomes the
existing one plus 1; otherwise the new timestamp is used and the build
number resets to 1. -/
theorem getOrGenerateSnapshotMetadata_sequencing (now : JSDate)
    (m : MavenMetadata) (ts : String) (n : Nat)
    (hts : metaSnapshotTimestamp m = some ts)
    (hbn : metaSnapshotBuildNumber m = some n) :
    getOrGenerateSnapshotMetadata none now = ⟨formatTimestamp now, 1⟩ ∧
    (ts = formatTimestamp now →
        getOrGenerateSnapshotMetadata (some m) now = ⟨ts, n + 1⟩) ∧
    (ts ≠ formatTimestamp now →
        getOrGenerateSnapshotMetadata (some m) now = ⟨formatTimestamp now, 1⟩) := by
  refine ⟨rfl, ?_, ?_⟩
  · intro heq
    simp [getOrGenerateSnapshotMetadata, hts, hbn, heq]
  · intro hne
    simp [getOrGenerateSnapshotMetadata, hts, hbn, hne]

/-- Witness for C1 at a concrete date and metadata document: build number 3
at the same timestamp bucket becomes 4; a fresh version starts at 1; a
different bucket resets to 1. -/
theorem getOrGenerateSnapshotMetadata_sequencing_witness :
    getOrGenerateSnapshotMetadata
        (some ⟨some ⟨none, none, none,
          some ⟨none, none, some ⟨some "20240101.120000", some 3⟩, none, none, none⟩⟩⟩)
        ⟨2024, 0, 1, 12, 0, 0⟩
      = ⟨"20240101.120000", 4⟩ ∧
    getOrGenerateSnapshotMetadata none ⟨2024, 0, 1, 12, 0, 0⟩
      = ⟨formatTimestamp ⟨2024, 0, 1, 12, 0, 0⟩, 1⟩ ∧
    getOrGenerateSnapshotMetadata
        (some ⟨some ⟨none, none, none,
          some ⟨none, none, some ⟨some "20231231.235959", some 7⟩, none, none, none⟩⟩⟩)
        ⟨2024, 0, 1, 12, 0, 0⟩
      = ⟨formatTimestamp ⟨2024, 0, 1, 12, 0, 0⟩, 1⟩ := by
  have h1 := getOrGenerateSnapshotMetadata_sequencing ⟨2024, 0, 1, 12, 0, 0⟩
    ⟨some ⟨none, none, none,
      some ⟨none, none, some ⟨some "20240101.120000", some 3⟩, none, none, none⟩⟩⟩
    "20240101.120000" 3 rfl rfl
  have h2 := getOrGenerateSnapshotMetadata_sequencing ⟨2024, 0, 1, 12, 0, 0⟩
    ⟨some ⟨none, none, none,
      some ⟨none, none, some ⟨some "20231231.235959", some 7⟩, none, none, none⟩⟩⟩
    "20231231.235959" 7 rfl rfl
  exact ⟨h1.2.1 (by decide), h1.1, h2.2.2 (by decide)⟩

-- ---------------------------------------------------------------------------
-- C4: metadata membership invariant
-- ---------------------------------------------------------------------------

/-- C4 (amended): the document `updateSnapshotMetadata` writes sets `latest`
and `release` to the raw `-SNAPSHOT` version string while its `versions`
list holds the timestamped resolved values of the `snapshotVersion` entries,
so `latest`/`release` are not members of `versions` whenever the version
string differs from the timestamped value (the case for every well-formed
snapshot upload): the membership invariant is not maintained by this
writer. Stated for a first upload (no prior metadata). -/
theorem updateSnapshotMetadata_pointers (gp aid version bv : String)
    (sm : SnapshotMetadata) (ext : String) (now : JSDate)
    (hne : version ≠ bv ++ "-" ++ sm.timestamp ++ "-" ++ toString sm.buildNumber) :
    let doc := updateSnapshotMetadata gp aid version bv sm ext none now
    doc.latest = version ∧ doc.release = version ∧
    doc.versions = [some (bv ++ "-" ++ sm.timestamp ++ "-" ++ toString sm.buildNumber)] ∧
    some version ∉ doc.versions := by
  intro doc
  refine ⟨rfl, rfl, rfl, ?_⟩
  intro hmem
  have : some version
      = some (bv ++ "-" ++ sm.timestamp ++ "-" ++ toString sm.buildNumber) := by
    simpa [doc, updateSnapshotMetadata, metaSnapshotVersionsField,
      normalizeOneOrMany] using hmem
  exact hne (Option.some.injEq _ _ ▸ this)

/-- Witness for C4 at concrete inputs. -/
theorem updateSnapshotMetadata_pointers_witness :
    let doc := updateSnapshotMetadata "com/iamkaf" "amber" "1.0-SNAPSHOT" "1.0"
      ⟨"20240101.120000", 1⟩ "jar" none ⟨2024, 0, 1, 12, 0, 0⟩
    doc.latest = "1.0-SNAPSHOT" ∧ doc.release = "1.0-SNAPSHOT" ∧
    doc.versions = [some ("1.0" ++ "-" ++ "20240101.120000" ++ "-" ++ toString (1 : Nat))] ∧
    some "1.0-SNAPSHOT" ∉ doc.versions :=
  updateSnapshotMetadata_pointers "com/iamkaf" "amber" "1.0-SNAPSHOT" "1.0"
    ⟨"20240101.120000", 1⟩ "jar" ⟨2024, 0, 1, 12, 0, 0⟩ (by decide)

/-- C4 counterexample: the version-level metadata rewritten by
`updateSnapshotMetadata` for a first `1.0-SNAPSHOT` upload has
`latest = release = "1.0-SNAPSHOT"` but `versions =
["1.0-20240101.120000-1"]`, so `latest` is not a member of `versions`. -/
theorem snapshot_metadata_latest_not_in_versions :
    let doc := updateSnapshotMetadata "com/iamkaf" "amber" "1.0-SNAPSHOT" "1.0"
      ⟨"20240101.120000", 1⟩ "jar" none ⟨2024, 0, 1, 12, 0, 0⟩
    doc.latest = "1.0-SNAPSHOT" ∧
    doc.versions = [some "1.0-20240101.120000-1"] ∧
    ¬ (some doc.latest ∈ doc.versions) := by
  exact ⟨by decide, by decide, by decide⟩

-- ---------------------------------------------------------------------------
-- C8: accepted upload extensions
-- ---------------------------------------------------------------------------

/-- C8 (amended): release uploads through `handleReleasePut` are accepted
only with one of the nine extensions of `validExtensions` (anything else is
rejected 400 "Invalid file type" with nothing stored, and a valid extension
never produces that rejection); the routed snapshot path performs no
extension validation at all — any filename with a `-SNAPSHOT` version is
stored with 200; and the earlier worker publish / server-computing snapshot
variants validate against the seven-entry `validExtensionsV1`, which
rejects `.md5` and `.sha512` despite both being in the claimed nine. -/
theorem upload_extension_validation {γ : Type} (gs : List String)
    (a v f : String) (body : γ) (store : Store γ) (hgs : gs ≠ [])
    (hns : ∀ p ∈ gs ++ [a, v, f], '/' ∉ p.data) :
    let rpath := "/releases/" ++ jsJoin "/" (gs ++ [a, v, f])
    let spath := "/snapshots/" ++ jsJoin "/" (gs ++ [a, v, f])
    (hasValidExtension f = false →
        handleReleasePut true rpath body store = (⟨400, "Invalid file type"⟩, store)) ∧
    (hasValidExtension f = true →
        (handleReleasePut true rpath body store).1.status ≠ 400) ∧
    (jsEndsWith v "-SNAPSHOT" = true →
        handleSnapshotPut true spath body store
          = (⟨200, "OK"⟩,
              putStore (jsJoin "/" gs ++ "/" ++ a ++ "/" ++ v ++ "/" ++ f) body store)) ∧
    (hasValidExtensionV1 "lib.md5" = false ∧ hasValidExtension "lib.md5" = true ∧
      hasValidExtensionV1 "lib.sha512" = false ∧ hasValidExtension "lib.sha512" = true) := by
  intro rpath spath
  refine ⟨?_, ?_, ?_, by decide, by decide, by decide, by decide⟩
  · intro hext
    rw [handleReleasePut_eq gs a v f body store hgs hns]
    simp [hext]
  · intro hext
    rw [handleReleasePut_eq gs a v f body store hgs hns]
    simp only [hext, Bool.not_true, Bool.false_eq_true, if_false]
    split
    · simp
    · simp
  · intro hv
    rw [handleSnapshotPut_eq gs a v f body store hgs hns]
    simp [hv]

/-- Witness for C8 at concrete inputs: `evil.exe` is rejected on the release
path and stored untouched on the snapshot path; `lib.md5` passes the
nine-extension check but fails the seven-extension one. -/
theorem upload_extension_validation_witness :
    (handleReleasePut (γ := String) true
        ("/releases/" ++ jsJoin "/" (["com", "iamkaf"] ++ ["amber", "1.0.0", "evil.exe"]))
        "x" []
      = (⟨400, "Invalid file type"⟩, [])) ∧
    (handleSnapshotPut (γ := String) true
        ("/snapshots/" ++ jsJoin "/" (["com", "iamkaf"] ++ ["amber", "1.0-SNAPSHOT", "evil.exe"]))
        "x" []
      = (⟨200, "OK"⟩,
          putStore (jsJoin "/" ["com", "iamkaf"] ++ "/" ++ "amber" ++ "/" ++ "1.0-SNAPSHOT" ++ "/" ++ "evil.exe")
            "x" [])) ∧
    hasValidExtensionV1 "lib.md5" = false := by
  have h1 := upload_extension_validation (γ := String) ["com", "iamkaf"]
    "amber" "1.0.0" "evil.exe" "x" [] (by decide) (by decide)
  have h2 := upload_extension_validation (γ := String) ["com", "iamkaf"]
    "amber" "1.0-SNAPSHOT" "evil.exe" "x" [] (by decide) (by decide)
  exact ⟨h1.1 (by decide), h2.2.2.1 (by decide), h1.2.2.2.1⟩

/-- C8 counterexample: on the routed snapshot upload path a file with the
extension `.exe` — in none of the nine accepted extensions — is stored
successfully with 200 instead of being rejected 400, so the
"accepted iff one of the nine extensions, for every upload" claim fails. -/
theorem snapshot_upload_skips_extension_validation :
    let path := "/snapshots/com/iamkaf/amber/1.0-SNAPSHOT/evil.exe"
    let r := handleSnapshotPut (γ := String) true path "payload" []
    hasValidExtension "evil.exe" = false ∧
    r.1.status = 200 ∧
    getStore "com/iamkaf/amber/1.0-SNAPSHOT/evil.exe" r.2 = some "payload" := by
  exact ⟨by decide, by decide, by decide⟩

-- ---------------------------------------------------------------------------
-- C9: versions query error contract
-- ---------------------------------------------------------------------------

/-- C9: with both query parameters present (truthy), `handleGetVersions`
returns 404 "Artifact not found" when the artifact-level metadata object is
absent, 500 "Invalid maven-metadata.xml" when the versions list cannot be
obtained from the (possibly unparseable) document, and otherwise the
versions — a permutation of the document's list, ordered by the query-time
version sort — each annotated with `latest` and `release` booleans (with
`latest` falling back to `release`). -/
theorem handleGetVersions_contract (g a : Option String)
    (hg : strTruthy g = true) (ha : strTruthy a = true) :
    (handleGetVersions g a none = .err 404 "Artifact not found") ∧
    (∀ parsed : Option MavenMetadata,
        versionsFieldFalsy (parsed.bind metaVersionsField) = true →
        handleGetVersions g a (some parsed) = .err 500 "Invalid maven-metadata.xml") ∧
    (∀ parsed : Option MavenMetadata,
        versionsFieldFalsy (parsed.bind metaVersionsField) = false →
        ∃ L : List VersionBadge,
          handleGetVersions g a (some parsed) = .ok L ∧
          L.map (·.version) = jsSortDesc (normalizeOneOrMany (parsed.bind metaVersionsField)) ∧
          (L.map (·.version)).Perm (normalizeOneOrMany (parsed.bind metaVersionsField)) ∧
          ∀ b ∈ L,
            b.latest = (jsOrStr ((parsed.bind metaVersioning).bind (·.latest))
                ((parsed.bind metaVersioning).bind (·.release)) == some b.version) ∧
            b.release = (((parsed.bind metaVersioning).bind (·.release)) == some b.version)) := by
  refine ⟨?_, ?_, ?_⟩
  · simp [handleGetVersions, hg, ha]
  · intro parsed hf
    simp [handleGetVersions, hg, ha, hf]
  · intro parsed hf
    have hmap : ∀ (zs : List String) (lat rel : Option String),
        (zs.map (fun version =>
          (⟨version, lat == some version, rel == some version⟩ : VersionBadge))).map
            (·.version) = zs := by
      intro zs lat rel
      induction zs with
      | nil => rfl
      | cons z zt ih => simp [ih]
    refine ⟨(jsSortDesc (normalizeOneOrMany (parsed.bind metaVersionsField))).map
      (fun version =>
        ⟨version,
          jsOrStr ((parsed.bind metaVersioning).bind (·.latest))
              ((parsed.bind metaVersioning).bind (·.release)) == some version,
          ((parsed.bind metaVersioning).bind (·.release)) == some version⟩),
      ?_, hmap _ _ _, ?_, ?_⟩
    · simp [handleGetVersions, hg, ha, hf]
    · rw [hmap]
      exact List.perm_insertionSort _ _
    · intro b hb
      rcases List.mem_map.mp hb with ⟨v, _, hv⟩
      subst hv
      exact ⟨rfl, rfl⟩

/-- Witness for C9 at concrete inputs: a missing object yields 404 and an
unparseable document yields 500. -/
theorem handleGetVersions_contract_witness :
    handleGetVersions (some "com.iamkaf") (some "amber") none
      = .err 404 "Artifact not found" ∧
    handleGetVersions (some "com.iamkaf") (some "amber") (some none)
      = .err 500 "Invalid maven-metadata.xml" := by
  have h := handleGetVersions_contract (some "com.iamkaf") (some "amber")
    (by decide) (by decide)
  exact ⟨h.1, h.2.1 none (by decide)⟩

-- ---------------------------------------------------------------------------
-- C5: query-time version sort
-- ---------------------------------------------------------------------------

/-- Tail of `cmpZ` once the left sequence is exhausted. -/
def cmpZRest : List Int → Int
  | [] => 0
  | y :: ys => if (0 : Int) ≠ y then y - 0 else cmpZRest ys

/-- The comparator loop after the per-index `|| 0` coercion: first-difference
comparison of integer sequences, reading absent trailing components as 0. -/
def cmpZ : List Int → List Int → Int
  | [], ys => cmpZRest ys
  | x :: xs, [] => if x ≠ (0 : Int) then 0 - x else cmpZ xs []
  | x :: xs, y :: ys => if x ≠ y then y - x else cmpZ xs ys

/-- The integer key the code's comparator effectively sorts by: dot
components through `Number`, with `NaN` (and, at lookup time, missing
entries) coerced to 0. -/
def versionKey (s : String) : List Int :=
  (versionParts s).map (·.getD 0)

/-- One step of `cmpZ`: compare the virtual heads (0 for an exhausted
list), recurse on the tails. -/
theorem cmpZ_step (a b : List Int) :
    cmpZ a b = if a.headD 0 ≠ b.headD 0 then b.headD 0 - a.headD 0
      else cmpZ a.tail b.tail := by
  cases a <;> cases b <;> simp [cmpZ, cmpZRest]

theorem cmpZ_trans (a b c : List Int) (h1 : cmpZ a b ≤ 0) (h2 : cmpZ b c ≤ 0) :
    cmpZ a c ≤ 0 := by
  generalize hn : a.length + b.length + c.length = n
  induction n using Nat.strong_induction_on generalizing a b c with
  | _ n ih =>
    cases n with
    | zero =>
      have ha : a = [] := List.length_eq_zero.mp (by omega)
      have hc : c = [] := List.length_eq_zero.mp (by omega)
      subst ha; subst hc
      simp [cmpZ, cmpZRest]
    | succ m =>
      rw [cmpZ_step] at h1 h2 ⊢
      have hml : a.tail.length + b.tail.length + c.tail.length < m + 1 := by
        simp only [List.length_tail]
        omega
      by_cases hab : a.headD 0 = b.headD 0
      · rw [if_neg (fun h => h hab)] at h1
        by_cases hbc : b.headD 0 = c.headD 0
        · rw [if_neg (fun h => h hbc)] at h2
          rw [if_neg (fun h => h (hab.trans hbc))]
          exact ih _ hml _ _ _ h1 h2 rfl
        · rw [if_pos hbc] at h2
          have hlt : c.headD 0 < b.headD 0 := by
            rcases lt_or_eq_of_le (by omega : c.headD 0 ≤ b.headD 0) with h | h
            · exact h
            · exact absurd h.symm hbc
          rw [if_pos (by omega : a.headD 0 ≠ c.headD 0)]
          omega
      · rw [if_pos hab] at h1
        have hlt : b.headD 0 < a.headD 0 := by
          rcases lt_or_eq_of_le (by omega : b.headD 0 ≤ a.headD 0) with h | h
          · exact h
          · exact absurd h.symm hab
        by_cases hbc : b.headD 0 = c.headD 0
        · rw [if_pos (by omega : a.headD 0 ≠ c.headD 0)]
          omega
        · rw [if_pos hbc] at h2
          have hlt2 : c.headD 0 < b.headD 0 := by
            rcases lt_or_eq_of_le (by omega : c.headD 0 ≤ b.headD 0) with h | h
            · exact h
            · exact absurd h.symm hbc
          rw [if_pos (by omega : a.headD 0 ≠ c.headD 0)]
          omega

theorem cmpZ_antisymm (a b : List Int) : cmpZ b a = -cmpZ a b := by
  generalize hn : a.length + b.length = n
  induction n using Nat.strong_induction_on generalizing a b with
  | _ n ih =>
    cases n with
    | zero =>
      have ha : a = [] := List.length_eq_zero.mp (by omega)
      have hb : b = [] := List.length_eq_zero.mp (by omega)
      subst ha; subst hb
      simp [cmpZ, cmpZRest]
    | succ m =>
      rw [cmpZ_step a b, cmpZ_step b a]
      have hml : a.tail.length + b.tail.length < m + 1 := by
        simp only [List.length_tail]
        omega
      by_cases hab : a.headD 0 = b.headD 0
      · rw [if_neg (fun h => h hab.symm), if_neg (fun h => h hab)]
        exact ih _ hml _ _ rfl
      · rw [if_pos (fun h => hab h.symm), if_pos hab]
        omega

theorem cmpRest_eq_cmpZRest (ys : List (Option Int)) :
    cmpRest ys = cmpZRest (ys.map (·.getD 0)) := by
  induction ys with
  | nil => rfl
  | cons y yt ih => simp [cmpRest, cmpZRest, ih]

theorem cmpLoop_eq_cmpZ (pa pb : List (Option Int)) :
    cmpLoop pa pb = cmpZ (pa.map (·.getD 0)) (pb.map (·.getD 0)) := by
  induction pa generalizing pb with
  | nil => simp [cmpLoop, cmpZ, cmpRest_eq_cmpZRest]
  | cons x xs ih =>
    cases pb with
    | nil => simp [cmpLoop, cmpZ, ih]
    | cons y ys => simp [cmpLoop, cmpZ, ih]

/-- C5 (amended): the versions query's sort is a stable sort by the code's
comparator, which compares dot-separated components numerically,
descending, with a missing trailing component AND any component that fails
to parse as an integer — in particular one carrying `+build` metadata —
coerced to 0 (the `'+'` suffix is not stripped: `2.5+build5` compares as
`2.0`, not `2.5`): the output is a permutation of the input, pairwise
ordered by the comparator, the comparator equals first-difference comparison
of the coerced integer keys, and the claim's concrete example sorts to
exactly the stated output. -/
theorem versions_sort_characterization :
    (∀ l : List String, List.Perm (jsSortDesc l) l) ∧
    (∀ l : List String,
        List.Pairwise (fun a b => compareVersionsDesc a b ≤ 0) (jsSortDesc l)) ∧
    (∀ a b : String, compareVersionsDesc a b = cmpZ (versionKey a) (versionKey b)) ∧
    jsSortDesc ["1.0.0", "1.2.0", "1.10.0", "2.0.0+build5"]
      = ["2.0.0+build5", "1.10.0", "1.2.0", "1.0.0"] := by
  have hbridge : ∀ a b : String,
      compareVersionsDesc a b = cmpZ (versionKey a) (versionKey b) :=
    fun a b => cmpLoop_eq_cmpZ _ _
  refine ⟨fun l => List.perm_insertionSort _ l, ?_, hbridge, by decide⟩
  intro l
  haveI : IsTrans String (fun a b => compareVersionsDesc a b ≤ 0) := by
    constructor
    intro a b c h1 h2
    rw [hbridge] at h1 h2 ⊢
    exact cmpZ_trans _ _ _ h1 h2
  haveI : IsTotal String (fun a b => compareVersionsDesc a b ≤ 0) := by
    constructor
    intro a b
    rw [hbridge a b, hbridge b a, cmpZ_antisymm (versionKey a) (versionKey b)]
    omega
  exact List.sorted_insertionSort _ l

/-- C5 counterexample: the query's sort does not strip `'+'` build
metadata. On the versions `["2.5+build5", "2.3"]` the query returns `2.3`
first (the component `5+build5` is `NaN`, coerced to 0, so `2.5+build5`
compares as `2.0 < 2.3`), while the spec's strip-then-compare order — the
frontend's `compareVersions`, which does strip — puts `2.5+build5` first. -/
theorem versions_sort_plus_not_stripped :
    let doc : MavenMetadata := ⟨some ⟨some "com.iamkaf", some "amber", none,
      some ⟨some "2.5+build5", some "2.5+build5", none, none, none,
        some (.many ["2.5+build5", "2.3"])⟩⟩⟩
    handleGetVersions (some "com.iamkaf") (some "amber") (some (some doc))
      = .ok [⟨"2.3", false, false⟩, ⟨"2.5+build5", true, true⟩] ∧
    jsSortDesc ["2.5+build5", "2.3"] = ["2.3", "2.5+build5"] ∧
    specStripSortDesc ["2.5+build5", "2.3"] = ["2.5+build5", "2.3"] ∧
    jsSortDesc ["2.5+build5", "2.3"] ≠ specStripSortDesc ["2.5+build5", "2.3"] := by
  exact ⟨by decide, by decide, by decide, by decide⟩

-- ---------------------------------------------------------------------------
-- C7: purge behaviour
-- ---------------------------------------------------------------------------

theorem pagesOfAux_join {α : Type} (n : Nat) :
    ∀ (fuel : Nat) (l : List α), (pagesOfAux n fuel l).join = l := by
  intro fuel
  induction fuel with
  | zero => intro l; simp [pagesOfAux]
  | succ m ih =>
    intro l
    simp only [pagesOfAux]
    split
    · simp
    · simp [ih, List.take_append_drop]

theorem pagesOf_join {α : Type} (n : Nat) (l : List α) :
    (pagesOf n l).join = l := pagesOfAux_join n l.length l

theorem runPages_nofault (faults : Nat → Bool) (hf : ∀ j, faults j = false) :
    ∀ (i : Nat) (pages : List (List String)),
      runPages faults i pages = (pages.join, false) := by
  intro i pages
  induction pages generalizing i with
  | nil => simp [runPages]
  | cons p ps ih =>
    cases ps with
    | nil => simp [runPages, hf i]
    | cons q qs =>
      simp [runPages, hf i, ih (i + 1)]

theorem runPages_mem (faults : Nat → Bool) :
    ∀ (i : Nat) (pages : List (List String)) (k : String),
      k ∈ (runPages faults i pages).1 → k ∈ pages.join := by
  intro i pages
  induction pages generalizing i with
  | nil => intro k hk; simp [runPages] at hk
  | cons p ps ih =>
    cases ps with
    | nil =>
      intro k hk
      simp only [runPages] at hk
      split at hk
      · simp at hk
      · simpa using hk
    | cons q qs =>
      intro k hk
      simp only [runPages] at hk
      split at hk
      · simp at hk
      · simp only [List.join_cons, List.mem_append]
        rcases List.mem_append.mp hk with h | h
        · exact Or.inl h
        · exact Or.inr (by simpa using ih (i + 1) k h)

/-- Two character lists starting with different characters cannot both be
prefixes of the same list. -/
theorem prefix_head_ne {k l1 l2 : List Char} {c1 c2 : Char} (hne : c1 ≠ c2)
    (h1 : (c1 :: l1).isPrefixOf k = true)
    (h2 : (c2 :: l2).isPrefixOf k = true) : False := by
  cases k with
  | nil => simp [List.isPrefixOf] at h1
  | cons a as =>
    simp only [List.isPrefixOf, Bool.and_eq_true, beq_iff_eq] at h1 h2
    exact hne (h1.1.trans h2.1.symm)

/-- A key under the releases root is not under the snapshots root. -/
theorem rel_snap_prefix_disjoint (pp k : String)
    (h1 : jsStartsWith k ("releases/" ++ pp ++ "/") = true)
    (h2 : jsStartsWith k ("snapshots/" ++ pp ++ "/") = true) : False := by
  have dr : ("releases/").data = 'r' :: ("eleases/").data := by decide
  have ds : ("snapshots/").data = 's' :: ("napshots/").data := by decide
  simp only [jsStartsWith, String.data_append, dr, ds, List.cons_append] at h1 h2
  exact prefix_head_ne (by decide) h1 h2

/-- `contains` is `decide`d membership. -/
theorem contains_eq_decide_mem (l : List String) (k : String) :
    l.contains k = decide (k ∈ l) := by
  show List.elem k l = decide (k ∈ l)
  by_cases h : k ∈ l
  · rw [List.elem_eq_true_of_mem h, decide_eq_true h]
  · have h1 : List.elem k l = false :=
      Bool.eq_false_iff.mpr (fun hc => h (List.elem_iff.mp hc))
    rw [h1, decide_eq_false h]

/-- Everything one root's loop deletes was in the store, under the root's
prefix. -/
theorem purgeRoot_sub (faults : Nat → Bool) (n : Nat) (pre : String)
    (store : List String) (k : String)
    (hk : k ∈ (purgeRoot faults n pre store).1) :
    k ∈ store ∧ jsStartsWith k pre = true := by
  have := runPages_mem faults 0 _ k hk
  rw [pagesOf_join] at this
  exact List.mem_filter.mp this

/-- With no faults, one root's loop deletes exactly the matching keys. -/
theorem purgeRoot_nofault (faults : Nat → Bool) (hf : ∀ j, faults j = false)
    (n : Nat) (pre : String) (store : List String) :
    purgeRoot faults n pre store
      = (store.filter (fun k => jsStartsWith k pre), false) := by
  show runPages faults 0 (pagesOf n (store.filter (fun k => jsStartsWith k pre))) = _
  rw [runPages_nofault faults hf, pagesOf_join]

/-- C7: purge behaviour. Given an authenticated purge with a prefix whose
path form has at least 3 characters, against `store` with fault schedules
`fr`/`fs` for the two roots: the response is 200; `deleted` is the
concatenation of the keys the releases loop deleted and then those the
snapshots loop deleted (the former independent of the snapshots-root
faults); the final store is exactly the original minus the deleted keys;
every deleted key was present and lies under one of the two
converted-prefix roots; `success` is true iff `errors` is empty, which
holds iff neither root's loop caught a fault; releases-root deletions stand
even when the snapshots root fails (no rollback); and with no faults every
key under both roots is deleted. -/
theorem handlePurge_contract (p : String) (n : Nat) (fr fs : Nat → Bool)
    (store : List String)
    (hp : ¬ (jsReplaceAll '.' '/' p).length < 3) (hpt : p ≠ "") :
    let pathPrefix := jsReplaceAll '.' '/' p
    let relPrefix := "releases/" ++ pathPrefix ++ "/"
    let snapPrefix := "snapshots/" ++ pathPrefix ++ "/"
    let rel := purgeRoot fr n relPrefix store
    let store1 := store.filter (fun k => !(rel.1.contains k))
    let snap := purgeRoot fs n snapPrefix store1
    let r := handlePurge true (some p) n fr fs store
    r.status = 200 ∧
    r.deleted = rel.1 ++ snap.1 ∧
    r.store = store.filter (fun k => !(r.deleted.contains k)) ∧
    (∀ k ∈ r.deleted, k ∈ store ∧
        (jsStartsWith k relPrefix = true ∨ jsStartsWith k snapPrefix = true)) ∧
    (r.success = true ↔ r.errors = []) ∧
    (r.errors = [] ↔ (rel.2 = false ∧ snap.2 = false)) ∧
    (∀ k ∈ rel.1, k ∉ r.store) ∧
    ((∀ j, fr j = false) → (∀ j, fs j = false) →
        r.success = true ∧
        r.deleted = store.filter (fun k => jsStartsWith k relPrefix)
          ++ store.filter (fun k => jsStartsWith k snapPrefix) ∧
        r.store = store.filter (fun k =>
          !(jsStartsWith k relPrefix) && !(jsStartsWith k snapPrefix))) := by
  intro pathPrefix relPrefix snapPrefix rel store1 snap r
  have hstore1 : store1 = store.filter (fun k => !(rel.1.contains k)) := rfl
  have hr : r = ⟨200, ((if rel.2 then ["Failed to purge " ++ relPrefix] else []) ++
        (if snap.2 then ["Failed to purge " ++ snapPrefix] else [])).isEmpty,
      rel.1 ++ snap.1,
      (if rel.2 then ["Failed to purge " ++ relPrefix] else []) ++
        (if snap.2 then ["Failed to purge " ++ snapPrefix] else []),
      store1.filter (fun k => !(snap.1.contains k))⟩ := by
    show handlePurge true (some p) n fr fs store = _
    unfold handlePurge
    rw [if_neg (by decide)]
    rw [if_neg (by simp [strTruthy, hpt])]
    dsimp only [Option.getD]
    rw [if_neg hp]
  have hsnapmem : ∀ k ∈ snap.1, k ∈ store1 ∧ jsStartsWith k snapPrefix = true :=
    fun k hk => purgeRoot_sub fs n snapPrefix store1 k hk
  refine ⟨by rw [hr], by rw [hr], ?_, ?_, ?_, ?_, ?_, ?_⟩
  · -- final store = original minus deleted
    rw [hr, hstore1, List.filter_filter]
    apply List.filter_congr
    intro k hk
    simp only [contains_eq_decide_mem, List.mem_append]
    by_cases h1 : k ∈ rel.1 <;> by_cases h2 : k ∈ snap.1 <;> simp [h1, h2]
  · -- deleted ⊆ store, under one of the roots
    rw [hr]
    intro k hk
    rcases List.mem_append.mp hk with h | h
    · have := purgeRoot_sub fr n relPrefix store k h
      exact ⟨this.1, Or.inl this.2⟩
    · have := hsnapmem k h
      exact ⟨(List.mem_filter.mp (hstore1 ▸ this.1)).1, Or.inr this.2⟩
  · -- success ↔ errors empty
    rw [hr]
    exact List.isEmpty_iff
  · -- errors empty ↔ both flags false
    rw [hr]
    rcases hrel2 : rel.2 <;> rcases hsnap2 : snap.2 <;> simp
  · -- releases deletions are not rolled back
    rw [hr]
    intro k hk hmem
    have hks : k ∈ store1 := (List.mem_filter.mp hmem).1
    have hpred := (List.mem_filter.mp (hstore1 ▸ hks)).2
    rw [contains_eq_decide_mem] at hpred
    simp [hk] at hpred
  · -- no faults: full purge of both roots
    intro hfr hfs
    have hrelv : rel = (store.filter (fun k => jsStartsWith k relPrefix), false) :=
      purgeRoot_nofault fr hfr n relPrefix store
    have hsnapv : snap = (store1.filter (fun k => jsStartsWith k snapPrefix), false) :=
      purgeRoot_nofault fs hfs n snapPrefix store1
    have hsnap1 : snap.1 = store.filter (fun k => jsStartsWith k snapPrefix) := by
      rw [hsnapv, hstore1, hrelv, List.filter_filter]
      apply List.filter_congr
      intro k hk
      by_cases hks : jsStartsWith k snapPrefix = true
      · have hnotrel : k ∉ store.filter (fun k' => jsStartsWith k' relPrefix) :=
          fun hmem =>
            rel_snap_prefix_disjoint pathPrefix k (List.mem_filter.mp hmem).2 hks
        simp [hks, contains_eq_decide_mem, hnotrel]
      · simp [hks]
    refine ⟨?_, ?_, ?_⟩
    · rw [hr]
      have h1 : rel.2 = false := by rw [hrelv]
      have h2 : snap.2 = false := by rw [hsnapv]
      simp [h1, h2]
    · rw [hr, hsnap1]
      have h1 : rel.1 = store.filter (fun k => jsStartsWith k relPrefix) := by
        rw [hrelv]
      rw [h1]
    · rw [hr, hstore1, List.filter_filter]
      apply List.filter_congr
      intro k hk
      have hkrel : rel.1 = store.filter (fun k' => jsStartsWith k' relPrefix) := by
        rw [hrelv]
      rw [hkrel, hsnap1, contains_eq_decide_mem, contains_eq_decide_mem]
      by_cases h1 : jsStartsWith k relPrefix = true <;>
        by_cases h2 : jsStartsWith k snapPrefix = true
      · exact absurd h2 (fun h => rel_snap_prefix_disjoint pathPrefix k h1 h)
      · simp [h1, h2, List.mem_filter, hk]
      · simp [h1, h2, List.mem_filter, hk]
      · simp [h1, h2, List.mem_filter, hk]

/-- Witness for C7 at a concrete store: purging `com.iamkaf.amber` with no
faults deletes every key under both roots' converted prefix, leaves the
unrelated key, and reports success. -/
theorem handlePurge_contract_witness :
    (handlePurge true (some "com.iamkaf.amber") 0 (fun _ => false) (fun _ => false)
        ["releases/com/iamkaf/amber/1.0.0/a.jar", "releases/com/iamkaf/amber/1.0.0/a.pom",
          "snapshots/com/iamkaf/amber/1.0-SNAPSHOT/a.jar", "releases/com/other/b.jar"]).success
      = true ∧
    (handlePurge true (some "com.iamkaf.amber") 0 (fun _ => false) (fun _ => false)
        ["releases/com/iamkaf/amber/1.0.0/a.jar", "releases/com/iamkaf/amber/1.0.0/a.pom",
          "snapshots/com/iamkaf/amber/1.0-SNAPSHOT/a.jar", "releases/com/other/b.jar"]).deleted
      = ["releases/com/iamkaf/amber/1.0.0/a.jar", "releases/com/iamkaf/amber/1.0.0/a.pom",
          "snapshots/com/iamkaf/amber/1.0-SNAPSHOT/a.jar"] ∧
    (handlePurge true (some "com.iamkaf.amber") 0 (fun _ => false) (fun _ => false)
        ["releases/com/iamkaf/amber/1.0.0/a.jar", "releases/com/iamkaf/amber/1.0.0/a.pom",
          "snapshots/com/iamkaf/amber/1.0-SNAPSHOT/a.jar", "releases/com/other/b.jar"]).store
      = ["releases/com/other/b.jar"] := by
  have h := handlePurge_contract "com.iamkaf.amber" 0 (fun _ => false) (fun _ => false)
    ["releases/com/iamkaf/amber/1.0.0/a.jar", "releases/com/iamkaf/amber/1.0.0/a.pom",
      "snapshots/com/iamkaf/amber/1.0-SNAPSHOT/a.jar", "releases/com/other/b.jar"]
    (by decide) (by decide)
  have hnf := h.2.2.2.2.2.2.2 (fun _ => rfl) (fun _ => rfl)
  refine ⟨hnf.1, ?_, ?_⟩
  · rw [hnf.2.1]
    decide
  · rw [hnf.2.2]
    decide

end MavenRepo
